import Mathlib

/-!
# Verification of the AutoTagBot action logic

Shallow embedding of the decision and naming logic of the `action-autotagbot`
repository (`src/main.js`): version sentinel check, tag-pattern derivation,
tag matching, revision resolution, idempotence guards, changelog rendering and
release prerelease flag.  JavaScript strings are modelled as Lean `String`
(lists of characters); JavaScript number arithmetic on the revision counter
(`parseInt` and the `+ 1`) is modelled as exact decimal reading followed by
round-to-nearest-even binary64 rounding (`roundDouble`), so the
double-precision absorption of the increment at and beyond 2^53 is captured
(only the overflow-to-infinity regime near 2^1024 is outside the modelled
domain); the dynamically built regular expression is
modelled by a compiler into a small pattern AST covering exactly the
metacharacter-free patterns (plus the single `(?<revision>[0-9]+)` group
fragment) that the action constructs; patterns outside this fragment are
mapped to `none` and left unmodelled.
-/

namespace AutoTagBot

/-! ## JavaScript string primitives -/

/-- Characters removed by JavaScript `String.prototype.trim` (the white-space
and line-terminator set, restricted to the code points relevant here). -/
def isJsWhitespace (c : Char) : Bool :=
  c = ' ' || c = '\t' || c = '\n' || c = '\r' ||
  c = Char.ofNat 11 || c = Char.ofNat 12 || c = Char.ofNat 160 ||
  c = Char.ofNat 0x2028 || c = Char.ofNat 0x2029 || c = Char.ofNat 0xFEFF

/-- Drop leading and trailing JavaScript whitespace from a character list. -/
def trimChars (l : List Char) : List Char :=
  ((l.dropWhile isJsWhitespace).reverse.dropWhile isJsWhitespace).reverse

/-- Model of JavaScript `String.prototype.trim`. -/
def jsTrim (s : String) : String :=
  String.mk (trimChars s.data)

/-- Model of JavaScript `String.prototype.toLowerCase` (ASCII fragment,
which is all the action's tag names and patterns exercise). -/
def jsToLower (s : String) : String :=
  String.mk (s.data.map Char.toLower)

/-- `trim().toLowerCase()` normalisation applied to every candidate tag name
in `searchMatchingTag` (src/main.js line 29). -/
def normalizeTagName (s : String) : String :=
  jsToLower (jsTrim s)

/-- Expansion of the `$`-escapes that JavaScript
`String.prototype.replace(string, string)` performs on the replacement text:
`$$` is a literal dollar, `$&` the matched pattern, a dollar followed by a
backtick the text before the match, `$'` the text after it; any other dollar
sequence stays literal (a string pattern has no capture groups). -/
def expandDollar (before matched after : List Char) : List Char → List Char
  | [] => []
  | '$' :: rest =>
    match rest with
    | [] => ['$']
    | c :: r =>
      if c = '$' then '$' :: expandDollar before matched after r
      else if c = '&' then matched ++ expandDollar before matched after r
      else if c = Char.ofNat 96 then before ++ expandDollar before matched after r
      else if c = Char.ofNat 39 then after ++ expandDollar before matched after r
      else '$' :: c :: expandDollar before matched after r
  | c :: rest => c :: expandDollar before matched after rest

/-- Index of the first occurrence of `pat` in `s`, as JavaScript
`String.prototype.indexOf` computes it. -/
def findPat : List Char → List Char → Option Nat
  | s, pat =>
    if pat.isPrefixOf s then some 0
    else
      match s with
      | [] => none
      | _ :: rest => (findPat rest pat).map (· + 1)

/-- Model of JavaScript `String.prototype.replace` with a string pattern:
replace only the first occurrence, expanding `$`-escapes in the replacement. -/
def listReplaceFirst (s pat repl : List Char) : List Char :=
  match findPat s pat with
  | none => s
  | some i =>
    s.take i ++ expandDollar (s.take i) pat (s.drop (i + pat.length)) repl ++
      s.drop (i + pat.length)

/-- `String`-level wrapper for `listReplaceFirst`. -/
def jsReplaceFirst (s pat repl : String) : String :=
  String.mk (listReplaceFirst s.data pat.data repl.data)

/-! ## The regular-expression fragment built by the action

The action builds its tag-matching regular expression by substituting the
version and the group fragment `(?<revision>[0-9]+)` into `^${tagFormat}$`
(src/main.js lines 100-104).  We compile such pattern strings into a little
AST: literal characters, `.` (any character except a line terminator), and
the revision capture group.  Patterns using any other regex metacharacter are
outside the modelled fragment and compile to `none`. -/

/-- One element of a compiled tag pattern. -/
inductive RElem where
  | lit (c : Char)
  | anyChar
  | revGroup
deriving DecidableEq, Repr

/-- The literal group fragment substituted for `{revision}`. -/
def revGroupText : List Char := "(?<revision>[0-9]+)".data

/-- Regex metacharacters that the compiled fragment does not cover
(`.` and the group fragment are handled before this test). -/
def isMetaChar (c : Char) : Bool :=
  c = '\\' || c = '^' || c = '$' || c = '*' || c = '+' || c = '?' ||
  c = '(' || c = ')' || c = '[' || c = ']' || c = '|' ||
  c = Char.ofNat 123 || c = Char.ofNat 125

/-- Compile the body of an anchored pattern (fuel-driven so that the
definition is structurally recursive and kernel-reducible; `fuel` is always
instantiated with the length of the character list).  A second occurrence of
the named group is rejected, as the JavaScript `RegExp` constructor throws on
duplicate group names. -/
def compileBodyFuel : Nat → List Char → Option (List RElem)
  | _, [] => some []
  | 0, _ :: _ => none
  | fuel + 1, c :: rest =>
    if revGroupText.isPrefixOf (c :: rest) then
      match compileBodyFuel fuel ((c :: rest).drop revGroupText.length) with
      | some es => if es.contains .revGroup then none else some (.revGroup :: es)
      | none => none
    else if c = '.' then (compileBodyFuel fuel rest).map (fun es => .anyChar :: es)
    else if isMetaChar c then none
    else (compileBodyFuel fuel rest).map (fun es => .lit c :: es)

/-- Compile a full pattern string of the form `^...$` (the shape built at
src/main.js line 100) into the pattern AST. -/
def compilePattern (p : String) : Option (List RElem) :=
  match p.data with
  | '^' :: rest =>
    if rest.getLast? = some '$' then compileBodyFuel rest.dropLast.length rest.dropLast
    else none
  | _ => none

/-- JavaScript `.` does not match line terminators. -/
def isLineTerm (c : Char) : Bool :=
  c = '\n' || c = '\r' || c = Char.ofNat 0x2028 || c = Char.ofNat 0x2029

/-- Number of leading decimal digits of a character list. -/
def countLeadingDigits : List Char → Nat
  | [] => 0
  | c :: r => if c.isDigit then countLeadingDigits r + 1 else 0

/-- Whole-string matching of a compiled pattern (the pattern is anchored with
`^...$`, so `RegExp.exec` succeeds exactly on a complete match).  On success
the result carries the text captured by the revision group (`none` when the
pattern contains no such group, mirroring the absent `groups` object of a
JavaScript match result).  The greedy `[0-9]+` group tries the longest digit
run first, exactly like the backtracking JavaScript engine. -/
def matchElems : List RElem → List Char → Option (Option String)
  | [], ds => if ds.isEmpty then some none else none
  | .lit c :: ps, ds =>
    match ds with
    | [] => none
    | d :: ds' => if d = c then matchElems ps ds' else none
  | .anyChar :: ps, ds =>
    match ds with
    | [] => none
    | d :: ds' => if isLineTerm d then none else matchElems ps ds'
  | .revGroup :: ps, ds =>
    match (List.range (countLeadingDigits ds)).reverse.find?
        (fun j => (matchElems ps (ds.drop (j + 1))).isSome) with
    | some j => some (some (String.mk (ds.take (j + 1))))
    | none => none

/-- Run a compiled anchored pattern against a string. -/
def execAnchored (re : List RElem) (s : String) : Option (Option String) :=
  matchElems re s.data

/-! ## Tag matching (src/main.js `searchMatchingTag`, lines 27-39) -/

/-- One remote tag as returned by the hosting API (`tag.name`,
`tag.commit.sha`). -/
structure Tag where
  name : String
  sha : String
deriving DecidableEq, Repr

/-- The value `searchMatchingTag` returns for a hit: the tag's original name
and commit SHA together with the revision text captured by the match
(`none` when the pattern has no revision group, mirroring an absent
`match.groups`). -/
structure MatchedTag where
  name : String
  sha : String
  revCapture : Option String
deriving DecidableEq, Repr

/-- src/main.js lines 27-39: walk the tag list in order, run the anchored
pattern against each trimmed, lower-cased tag name, and return the first hit
(with its original, un-normalised name and its SHA); `none` if no tag
matches. -/
def searchMatchingTag (tags : List Tag) (re : List RElem) : Option MatchedTag :=
  match tags with
  | [] => none
  | t :: rest =>
    match execAnchored re (normalizeTagName t.name) with
    | some cap => some ⟨t.name, t.sha, cap⟩
    | none => searchMatchingTag rest re

/-! ## Revision resolution and tag-name composition (src/main.js lines 100-120) -/

/-- src/main.js lines 100-104: the matching pattern — anchor the template,
substitute the version for the first `{version}`, substitute the capture
group fragment for the first `{revision}`, lower-case the result. -/
def tagPatternStr (tagFormat version : String) : String :=
  jsToLower
    (jsReplaceFirst (jsReplaceFirst ("^" ++ tagFormat ++ "$") "{version}" version)
      "{revision}" "(?<revision>[0-9]+)")

/-- Decimal value of a digit run. -/
def digitsVal (ds : List Char) : Nat :=
  ds.foldl (fun n c => n * 10 + (c.toNat - 48)) 0

/-- Exact decimal reading of a non-empty all-digit string, `none` otherwise. -/
def decimalValue? (s : String) : Option Nat :=
  if !s.data.isEmpty && s.data.all Char.isDigit then some (digitsVal s.data) else none

/-- The boundary `2^53` above which binary64 doubles no longer represent
every integer. -/
def twoPow53 : Nat := 9007199254740992

/-- The gap between consecutive binary64 doubles at integer magnitude `n`:
`1` below `2^53`, otherwise the power of two `2^k` with
`2^(52+k) <= n < 2^(53+k)`.  The fuel only bounds the number of halvings and
is always instantiated with `n` itself, which suffices. -/
def dblStepAux : Nat → Nat → Nat
  | 0, _ => 1
  | fuel + 1, n => if n < twoPow53 then 1 else 2 * dblStepAux fuel (n / 2)

/-- The binary64 spacing at integer magnitude `n`. -/
def dblStep (n : Nat) : Nat :=
  dblStepAux n n

/-- Round a nonnegative integer to the nearest IEEE-754 binary64 value
(round-to-nearest, ties-to-even), as JavaScript number arithmetic does.
This is the identity up to `2^53`; the overflow-to-infinity regime (values
at and beyond `2^1024 - 2^970`) is outside the modelled domain. -/
def roundDouble (n : Nat) : Nat :=
  let step := dblStep n
  let q := n / step
  let r := n % step
  if 2 * r < step then q * step
  else if step < 2 * r then (q + 1) * step
  else if q % 2 = 0 then q * step
  else (q + 1) * step

/-- `parseInt` on the decimal-digit strings captured by `[0-9]+` (the only
strings it is applied to in src/main.js line 116): the exact decimal value
rounded to the nearest binary64 double, which is the Number that JavaScript
`parseInt` returns; the non-digit default is never exercised on that
domain. -/
def jsParseIntNat (s : String) : Nat :=
  roundDouble ((decimalValue? s).getD 0)

/-- src/main.js lines 115-117: the next revision is `parseInt(captured) + 1`
when the match carries a revision capture group, and `1` otherwise (no
matching tag, or a pattern without named groups).  Both the `parseInt` result
and the sum are binary64 doubles, so each is rounded by `roundDouble`; the
increment is therefore absorbed at and beyond `2^53`. -/
def resolveRevision (mt : Option MatchedTag) : Nat :=
  match mt with
  | some m =>
    match m.revCapture with
    | some s => roundDouble (jsParseIntNat s + 1)
    | none => 1
  | none => 1

/-- src/main.js lines 118-120: the desired tag name — substitute the version
for the first `{version}` and the revision for the first `{revision}` in the
template itself (no anchoring, no lower-casing). -/
def tagNameStr (tagFormat version : String) (tagRevision : Nat) : String :=
  jsReplaceFirst (jsReplaceFirst tagFormat "{version}" version)
    "{revision}" (Nat.repr tagRevision)

/-! ## Changelog builder (src/main.js `getTagMessage`, lines 49-70) -/

/-- One commit of the comparison result: the commit message and the author
login when the API resolved one (`commit.author && commit.author.login`). -/
structure CommitEntry where
  message : String
  authorLogin : Option String
deriving DecidableEq, Repr

/-- JavaScript truthiness of a nullable string (`!x` is true for `null`,
`undefined` and the empty string). -/
def jsTruthy (s : Option String) : Bool :=
  match s with
  | some str => !str.isEmpty
  | none => false

/-- The loop body of src/main.js lines 59-65: skip `null` commit
entries, append a bullet line for each commit and the author login when it
is truthy. -/
def renderCommit (msg : String) (c : Option CommitEntry) : String :=
  match c with
  | none => msg
  | some commit =>
    let m := msg ++ "\n* " ++ commit.message
    match commit.authorLogin with
    | some login => if login.isEmpty then m else m ++ " (" ++ login ++ ")"
    | none => m

/-- src/main.js lines 49-70: `"Initial tag"` when either endpoint is falsy or
the comparison yields no commits; otherwise the accumulated bullet list,
trimmed.  The commit comparison result is passed in as data (the network
round trip is the collaborator boundary). -/
def getTagMessage (fromRef toRef : Option String)
    (commits : List (Option CommitEntry)) : String :=
  if !jsTruthy fromRef || !jsTruthy toRef then "Initial tag"
  else if commits.length < 1 then "Initial tag"
  else jsTrim (commits.foldl renderCommit "")

/-! ## Semantic-version parsing (the `semver.parse` call at src/main.js
line 155)

`semver.parse` is library code outside this repository; it is embedded here
following node-semver's strict grammar
`v? (0|[1-9][0-9]*) . (0|[1-9][0-9]*) . (0|[1-9][0-9]*) (-prerelease)? (+build)?`
after trimming, with numeric components bounded by `MAX_SAFE_INTEGER` and
prerelease identifiers either numeric without leading zeros or alphanumeric
containing a non-digit. -/

/-- The parsed pieces of a semantic version that the action consults. -/
structure SemverInfo where
  major : Nat
  minor : Nat
  patch : Nat
  prerelease : List String
  build : List String
deriving DecidableEq, Repr

/-- `Number.MAX_SAFE_INTEGER`; node-semver rejects larger components. -/
def maxSafeInteger : Nat := 9007199254740991

/-- Parse one numeric version component `0 | [1-9][0-9]*`. -/
def parseNumComp (cs : List Char) : Option (Nat × List Char) :=
  let run := cs.takeWhile Char.isDigit
  if run.isEmpty then none
  else if run.head? == some '0' && run.length != 1 then none
  else if digitsVal run > maxSafeInteger then none
  else some (digitsVal run, cs.dropWhile Char.isDigit)

/-- Characters allowed in prerelease/build identifiers: `[0-9A-Za-z-]`. -/
def svIdChar (c : Char) : Bool :=
  c.isAlpha || c.isDigit || c = '-'

/-- A valid prerelease identifier: numeric without leading zeros, or
alphanumeric containing at least one non-digit. -/
def preIdOk (run : List Char) : Bool :=
  match run with
  | [] => false
  | '0' :: rest => if run.all Char.isDigit then rest.isEmpty else true
  | _ => true

/-- A valid build identifier: any non-empty identifier run. -/
def buildIdOk (run : List Char) : Bool :=
  !run.isEmpty

/-- Parse a dot-separated identifier list (fuel-driven for structural
recursion; the fuel is always at least the input length plus one). -/
def parseDotIds (ok : List Char → Bool) : Nat → List Char → Option (List String × List Char)
  | 0, _ => none
  | fuel + 1, cs =>
    let run := cs.takeWhile svIdChar
    let rest := cs.dropWhile svIdChar
    if ok run then
      match rest with
      | '.' :: r2 =>
        match parseDotIds ok fuel r2 with
        | some (ids, r) => some (String.mk run :: ids, r)
        | none => none
      | _ => some ([String.mk run], rest)
    else none

/-- Model of `semver.parse` (strict mode): `none` exactly when node-semver
returns `null`. -/
def semverParse (s : String) : Option SemverInfo :=
  if s.length > 256 then none
  else
    let cs0 := (jsTrim s).data
    let cs := match cs0 with
      | 'v' :: r => r
      | r => r
    match parseNumComp cs with
    | none => none
    | some (mjr, r1) =>
      match r1 with
      | '.' :: r2 =>
        match parseNumComp r2 with
        | none => none
        | some (mnr, r3) =>
          match r3 with
          | '.' :: r4 =>
            match parseNumComp r4 with
            | none => none
            | some (pch, r5) =>
              match (match r5 with
                     | '-' :: r6 => parseDotIds preIdOk (r6.length + 1) r6
                     | _ => some ([], r5)) with
              | none => none
              | some (preIds, r7) =>
                match (match r7 with
                       | '+' :: r8 => parseDotIds buildIdOk (r8.length + 1) r8
                       | _ => some ([], r7)) with
                | none => none
                | some (bIds, r9) =>
                  if r9.isEmpty then some ⟨mjr, mnr, pch, preIds, bIds⟩ else none
          | _ => none
      | _ => none

/-- src/main.js line 162: the release prerelease flag —
`!!(parsedVersion && (parsedVersion.major === 0 || parsedVersion.prerelease.length > 0))`. -/
def preFlag (version : String) : Bool :=
  match semverParse version with
  | some v => v.major == 0 || !v.prerelease.isEmpty
  | none => false

/-! ## The run pipeline after version extraction (src/main.js lines 93-172)

The part of `run` before line 93 (input reading, file reading, applying the
user-supplied version regex) is glue around collaborators; the pipeline is
embedded from the extracted version string onward, with the remote data
(the tag list and the commit comparison result) supplied as environment
fields. -/

/-- The data a run works on once the version has been extracted. -/
structure RunEnv where
  tagFormat : String
  version : String
  tags : List Tag
  ctxSha : String
  commits : List (Option CommitEntry)
deriving DecidableEq, Repr

/-- What the run does after extracting the version: one of the early-abort
paths, the missing-SHA failure, or the creation path (which performs the
tag-object, reference and release creation calls with the recorded data). -/
inductive RunOutcome where
  | abortZeroVersion
  | abortShaMatch (tagName : String)
  | abortNameMatch (tagName : String)
  | failMissingSha
  | created (tagName : String) (tagRevision : Nat) (tagMessage : String)
      (changelogFrom : Option String) (changelogTo : String) (prerelease : Bool)
deriving DecidableEq, Repr

/-- Run result: the `version` output (set at line 94 on every path) plus the
outcome. -/
structure RunResult where
  outputVersion : String
  outcome : RunOutcome
deriving DecidableEq, Repr

/-- src/main.js line 97: the all-zero version sentinel. -/
def isZeroSentinel (v : String) : Bool :=
  v == "0" || v == "0.0" || v == "0.0.0"

/-- src/main.js lines 115-172: everything after the SHA idempotence guard. -/
def runAfterShaGuard (env : RunEnv) (mt : Option MatchedTag) : RunOutcome :=
  let tagRevision := resolveRevision mt
  let tagName := tagNameStr env.tagFormat env.version tagRevision
  if (match mt with | some m => m.name == tagName | none => false) then
    .abortNameMatch tagName
  else if env.ctxSha.isEmpty then
    .failMissingSha
  else
    let changelogFrom := (env.tags.head?).map Tag.name
    let tagMessage := getTagMessage changelogFrom (some env.ctxSha) env.commits
    .created tagName tagRevision tagMessage changelogFrom env.ctxSha
      (preFlag env.version)

/-- src/main.js lines 109-172: search for a matching tag, apply the SHA
idempotence guard, then continue. -/
def runCore (env : RunEnv) (re : List RElem) : RunOutcome :=
  match searchMatchingTag env.tags re with
  | some m =>
    if m.sha == env.ctxSha then .abortShaMatch m.name
    else runAfterShaGuard env (some m)
  | none => runAfterShaGuard env none

/-- src/main.js lines 93-172 as a function of the extracted version and the
remote data.  Returns `none` when the derived matching pattern falls outside
the compiled regex fragment (unmodelled). -/
def runFromVersion (env : RunEnv) : Option RunResult :=
  if isZeroSentinel env.version then
    some { outputVersion := env.version, outcome := .abortZeroVersion }
  else
    (compilePattern (tagPatternStr env.tagFormat env.version)).map
      (fun re => { outputVersion := env.version, outcome := runCore env re })

/-- Whether an outcome performs the tag-creation, reference-creation and
release-creation calls. -/
def RunOutcome.createsTag : RunOutcome → Bool
  | .created .. => true
  | _ => false

/-- Whether an outcome is a successful run (every path except the
missing-SHA `setFailed`; creation-call failures are collaborator faults
outside this model). -/
def RunOutcome.isSuccess : RunOutcome → Bool
  | .failMissingSha => false
  | _ => true

/-- The name of the tag an outcome creates, if any. -/
def RunOutcome.createdName : RunOutcome → Option String
  | .created n _ _ _ _ _ => some n
  | _ => none

/-! ## Spec-side reference definitions

These follow the specification's words (one bullet line per commit, joined by
newlines) and are compared against the code-derived `getTagMessage`. -/

/-- Spec wording: the line `* <commit message>`, with ` (<author login>)`
appended when an author login is resolvable. -/
def specRenderLine (c : CommitEntry) : String :=
  "* " ++ c.message ++
    (match c.authorLogin with
     | some l => if l.isEmpty then "" else " (" ++ l ++ ")"
     | none => "")

/-- Spec wording: join a list of lines with newlines. -/
def joinLines : List String → String
  | [] => ""
  | [l] => l
  | l :: l2 :: ls => l ++ "\n" ++ joinLines (l2 :: ls)

/-- The newline-prefixed bullet block that the `getTagMessage` loop
accumulates for a list of (non-null) commits. -/
def bulletBlock : List CommitEntry → String
  | [] => ""
  | c :: cs => "\n" ++ specRenderLine c ++ bulletBlock cs

/-! ## Concrete example inputs -/

/-- The pattern compiled from template `v{version}` and version `1.0.0`. -/
def vPat100 : List RElem := [.lit 'v', .lit '1', .anyChar, .lit '0', .anyChar, .lit '0']

/-- A run whose only (globally latest) tag does not match the pattern. -/
def envPriorTag : RunEnv := ⟨"v{version}", "1.0.0", [⟨"v9.9.9", "zzz"⟩], "abc", []⟩

/-- A run with major version 0 and no existing tags. -/
def envZeroMajor : RunEnv := ⟨"v{version}", "0.1.0", [], "abc", []⟩

/-- A run whose existing tag matches only after trim/lower-case
normalisation and points at a different commit. -/
def envCased : RunEnv := ⟨"v{version}", "1.0.0", [⟨"V1.0.0", "sha1"⟩], "sha2", []⟩

/-! ## General lemmas about the embedding -/

theorem runFromVersion_eq_core (env : RunEnv) (re : List RElem)
    (h0 : isZeroSentinel env.version = false)
    (hc : compilePattern (tagPatternStr env.tagFormat env.version) = some re) :
    runFromVersion env = some ⟨env.version, runCore env re⟩ := by
  simp [runFromVersion, h0, hc]

theorem matchElems_capture_none :
    ∀ {re : List RElem}, RElem.revGroup ∉ re →
      ∀ {ds : List Char} {r : Option String}, matchElems re ds = some r → r = none := by
  intro re
  induction re with
  | nil =>
    intro _ ds r hm
    simp only [matchElems] at hm
    split at hm
    · exact (Option.some.inj hm).symm
    · simp at hm
  | cons p ps ih =>
    intro hmem ds r hm
    have hps : RElem.revGroup ∉ ps := fun h => hmem (List.mem_cons_of_mem _ h)
    cases p with
    | lit c =>
      cases ds with
      | nil => simp [matchElems] at hm
      | cons d ds' =>
        simp only [matchElems] at hm
        split at hm
        · exact ih hps hm
        · simp at hm
    | anyChar =>
      cases ds with
      | nil => simp [matchElems] at hm
      | cons d ds' =>
        simp only [matchElems] at hm
        split at hm
        · simp at hm
        · exact ih hps hm
    | revGroup => exact absurd (List.mem_cons_self _ _) hmem

theorem searchMatchingTag_eq_find (tags : List Tag) (re : List RElem) :
    searchMatchingTag tags re =
      (tags.find? (fun t => (execAnchored re (normalizeTagName t.name)).isSome)).map
        (fun t => ⟨t.name, t.sha, (execAnchored re (normalizeTagName t.name)).getD none⟩) := by
  induction tags with
  | nil => rfl
  | cons t rest ih =>
    simp only [searchMatchingTag]
    cases h : execAnchored re (normalizeTagName t.name) with
    | some cap => simp [List.find?, h]
    | none => simp [List.find?, h, ih]

theorem searchMatchingTag_capture_none {re : List RElem} (hre : RElem.revGroup ∉ re) :
    ∀ {tags : List Tag} {mt : MatchedTag},
      searchMatchingTag tags re = some mt → mt.revCapture = none := by
  intro tags
  induction tags with
  | nil => intro mt hm; simp [searchMatchingTag] at hm
  | cons t rest ih =>
    intro mt hm
    simp only [searchMatchingTag] at hm
    cases h : execAnchored re (normalizeTagName t.name) with
    | some cap =>
      rw [h] at hm
      have hcap : cap = none := matchElems_capture_none hre h
      cases hm
      exact hcap
    | none =>
      rw [h] at hm
      exact ih hm

/-! ## Claim theorems -/

theorem dblStepAux_small (fuel n : Nat) (h : n < twoPow53) : dblStepAux fuel n = 1 := by
  cases fuel <;> simp [dblStepAux, h]

theorem roundDouble_eq_self {n : Nat} (h : n ≤ twoPow53) : roundDouble n = n := by
  rcases Nat.lt_or_ge n twoPow53 with hlt | hge
  · simp [roundDouble, dblStep, dblStepAux_small n n hlt, Nat.mod_one, Nat.div_one]
  · have heq : n = twoPow53 := Nat.le_antisymm h hge
    subst heq
    decide

/-- Claim C1 counterexample: at captured revision `9007199254740992` (that
is, `2^53`) the double-precision increment of src/main.js line 116 is
absorbed by round-to-nearest-even: the revision resolver yields
`9007199254740992`, not `9007199254740993`, refuting the claim that the
desired revision is the captured value plus one for every capture. -/
theorem revision_succ_overflow_counterexample :
    ("{revision}".data <:+: ("v{version}-{revision}" : String).data) ∧
    compilePattern (tagPatternStr "v{version}-{revision}" "1.0.0") =
      some [.lit 'v', .lit '1', .anyChar, .lit '0', .anyChar, .lit '0', .lit '-', .revGroup] ∧
    searchMatchingTag [⟨"v1.0.0-9007199254740992", "aaa"⟩]
        [.lit 'v', .lit '1', .anyChar, .lit '0', .anyChar, .lit '0', .lit '-', .revGroup] =
      some ⟨"v1.0.0-9007199254740992", "aaa", some "9007199254740992"⟩ ∧
    decimalValue? "9007199254740992" = some 9007199254740992 ∧
    resolveRevision (searchMatchingTag [⟨"v1.0.0-9007199254740992", "aaa"⟩]
        [.lit 'v', .lit '1', .anyChar, .lit '0', .anyChar, .lit '0', .lit '-', .revGroup]) =
      9007199254740992 ∧
    (9007199254740992 : Nat) ≠ 9007199254740992 + 1 := by
  refine ⟨by decide, by decide, by decide, by decide, by decide, by decide⟩

/-- Claim C1 amended: for every tag-name template containing the `{revision}`
placeholder and every tag list containing a matching tag whose name's
captured revision group parses as the decimal integer `N` with
`N + 1 ≤ 2^53` (so that the double-precision increment is exact), the
desired revision computed by the revision resolver (src/main.js lines
115-117) equals exactly `N + 1`; at and beyond `2^53` the increment is
absorbed by binary64 rounding. -/
theorem desired_revision_is_succ_of_capture
    (fmt version : String) (tags : List Tag) (re : List RElem) (mt : MatchedTag)
    (s : String) (N : Nat)
    (hfmt : "{revision}".data <:+: fmt.data)
    (hc : compilePattern (tagPatternStr fmt version) = some re)
    (hm : searchMatchingTag tags re = some mt)
    (hcap : mt.revCapture = some s)
    (hparse : decimalValue? s = some N)
    (hsmall : N + 1 ≤ twoPow53) :
    resolveRevision (searchMatchingTag tags re) = N + 1 := by
  rw [hm]
  have h1 : jsParseIntNat s = N := by
    simp only [jsParseIntNat, hparse, Option.getD_some]
    exact roundDouble_eq_self (Nat.le_of_succ_le hsmall)
  simp only [resolveRevision, hcap, h1]
  exact roundDouble_eq_self hsmall

theorem desired_revision_is_succ_of_capture_witness :
    ("{revision}".data <:+: ("v{version}-{revision}" : String).data) ∧
    compilePattern (tagPatternStr "v{version}-{revision}" "1.0.0") =
      some [.lit 'v', .lit '1', .anyChar, .lit '0', .anyChar, .lit '0', .lit '-', .revGroup] ∧
    searchMatchingTag [⟨"v1.0.0-3", "aaa"⟩]
        [.lit 'v', .lit '1', .anyChar, .lit '0', .anyChar, .lit '0', .lit '-', .revGroup] =
      some ⟨"v1.0.0-3", "aaa", some "3"⟩ ∧
    decimalValue? "3" = some 3 ∧
    3 + 1 ≤ twoPow53 ∧
    resolveRevision (searchMatchingTag [⟨"v1.0.0-3", "aaa"⟩]
        [.lit 'v', .lit '1', .anyChar, .lit '0', .anyChar, .lit '0', .lit '-', .revGroup]) = 4 :=
  ⟨by decide, by decide, by decide, by decide, by decide,
    desired_revision_is_succ_of_capture "v{version}-{revision}" "1.0.0"
      [⟨"v1.0.0-3", "aaa"⟩]
      [.lit 'v', .lit '1', .anyChar, .lit '0', .anyChar, .lit '0', .lit '-', .revGroup]
      ⟨"v1.0.0-3", "aaa", some "3"⟩ "3" 3
      (by decide) (by decide) (by decide) rfl (by decide) (by decide)⟩

/-- Claim C2 counterexample: a tag-name template that does not contain the
`{revision}` placeholder but literally contains the group fragment
`(?<revision>[0-9]+)` still yields a revision capture, so the desired
revision is `6`, not `1`, when a tag `v5` exists — refuting the claim that
templates without `{revision}` always give revision `1`. -/
theorem revision_one_without_placeholder_counterexample :
    ¬ ("{revision}".data <:+: ("v(?<revision>[0-9]+)" : String).data) ∧
    runFromVersion { tagFormat := "v(?<revision>[0-9]+)", version := "1.2.3",
                     tags := [⟨"v5", "aaa"⟩], ctxSha := "bbb", commits := [] } =
      some { outputVersion := "1.2.3",
             outcome := .created "v(?<revision>[0-9]+)" 6 "Initial tag" (some "v5") "bbb" false } ∧
    (6 : Nat) ≠ 1 := by
  refine ⟨by decide, by decide, by decide⟩

/-- Claim C2 amended: for every tag-name template and version whose derived
matching pattern contains no revision capture group (templates without
`{revision}` normally qualify, unless the template or version literally
contains the fragment `(?<revision>[0-9]+)`), the desired revision is always
`1`, regardless of whether a matching tag exists. -/
theorem desired_revision_one_without_group
    (fmt version : String) (tags : List Tag) (re : List RElem)
    (hc : compilePattern (tagPatternStr fmt version) = some re)
    (hnog : RElem.revGroup ∉ re) :
    resolveRevision (searchMatchingTag tags re) = 1 := by
  cases hm : searchMatchingTag tags re with
  | none => rfl
  | some mt =>
    have := searchMatchingTag_capture_none hnog hm
    simp [resolveRevision, this]

theorem desired_revision_one_without_group_witness :
    compilePattern (tagPatternStr "v{version}" "1.0.0") =
      some [.lit 'v', .lit '1', .anyChar, .lit '0', .anyChar, .lit '0'] ∧
    RElem.revGroup ∉ [RElem.lit 'v', .lit '1', .anyChar, .lit '0', .anyChar, .lit '0'] ∧
    resolveRevision (searchMatchingTag [⟨"v1.0.0", "s"⟩]
      [.lit 'v', .lit '1', .anyChar, .lit '0', .anyChar, .lit '0']) = 1 :=
  ⟨by decide, by decide,
    desired_revision_one_without_group "v{version}" "1.0.0" [⟨"v1.0.0", "s"⟩]
      [.lit 'v', .lit '1', .anyChar, .lit '0', .anyChar, .lit '0'] (by decide) (by decide)⟩

/-- Claim C5: whenever the extracted version is `"0"`, `"0.0"` or `"0.0.0"`, the
run terminates successfully via the zero-version abort, sets the `version`
output, and performs no tag-, reference- or release-creation call. -/
theorem zero_version_aborts_successfully (env : RunEnv)
    (h : env.version = "0" ∨ env.version = "0.0" ∨ env.version = "0.0.0") :
    runFromVersion env = some ⟨env.version, .abortZeroVersion⟩ ∧
    RunOutcome.abortZeroVersion.createsTag = false ∧
    RunOutcome.abortZeroVersion.isSuccess = true := by
  have h0 : isZeroSentinel env.version = true := by
    rcases h with h | h | h <;> simp [isZeroSentinel, h]
  exact ⟨by simp [runFromVersion, h0], rfl, rfl⟩

theorem zero_version_aborts_successfully_witness :
    (("0.0" : String) = "0" ∨ ("0.0" : String) = "0.0" ∨ ("0.0" : String) = "0.0.0") ∧
    runFromVersion { tagFormat := "v{version}", version := "0.0",
                     tags := [⟨"v1", "aaa"⟩], ctxSha := "bbb", commits := [] } =
      some ⟨"0.0", .abortZeroVersion⟩ :=
  ⟨by decide,
    (zero_version_aborts_successfully
      { tagFormat := "v{version}", version := "0.0",
        tags := [⟨"v1", "aaa"⟩], ctxSha := "bbb", commits := [] } (by decide)).1⟩

/-- Claim C4: whenever a matching tag exists and its commit SHA equals the current
commit SHA, the run aborts successfully (via the zero-version abort or the
SHA idempotence guard at src/main.js lines 112-113) before any tag-,
reference- or release-creation call; hence a second run over unchanged
repository state creates no second tag. -/
theorem sha_match_aborts_before_creation (env : RunEnv) (re : List RElem) (mt : MatchedTag)
    (hc : compilePattern (tagPatternStr env.tagFormat env.version) = some re)
    (hm : searchMatchingTag env.tags re = some mt)
    (hsha : mt.sha = env.ctxSha) :
    ∃ r, runFromVersion env = some r ∧
      r.outcome.createsTag = false ∧
      r.outcome.isSuccess = true ∧
      (r.outcome = .abortZeroVersion ∨ r.outcome = .abortShaMatch mt.name) := by
  by_cases h0 : isZeroSentinel env.version
  · refine ⟨⟨env.version, .abortZeroVersion⟩, by simp [runFromVersion, h0], rfl, rfl, Or.inl rfl⟩
  · have hcore : runCore env re = .abortShaMatch mt.name := by
      unfold runCore
      rw [hm]
      simp [hsha]
    refine ⟨⟨env.version, runCore env re⟩,
      runFromVersion_eq_core env re (by simpa using h0) hc, ?_, ?_, Or.inr hcore⟩
    · rw [hcore]; rfl
    · rw [hcore]; rfl

theorem sha_match_aborts_before_creation_witness :
    compilePattern (tagPatternStr "v{version}" "1.0.0") =
      some [.lit 'v', .lit '1', .anyChar, .lit '0', .anyChar, .lit '0'] ∧
    searchMatchingTag [⟨"v1.0.0", "abc"⟩]
        [.lit 'v', .lit '1', .anyChar, .lit '0', .anyChar, .lit '0'] =
      some ⟨"v1.0.0", "abc", none⟩ ∧
    ∃ r, runFromVersion { tagFormat := "v{version}", version := "1.0.0",
                          tags := [⟨"v1.0.0", "abc"⟩], ctxSha := "abc", commits := [] } = some r ∧
      r.outcome.createsTag = false ∧
      r.outcome.isSuccess = true ∧
      (r.outcome = .abortZeroVersion ∨ r.outcome = .abortShaMatch "v1.0.0") :=
  ⟨by decide, by decide,
    sha_match_aborts_before_creation
      { tagFormat := "v{version}", version := "1.0.0",
        tags := [⟨"v1.0.0", "abc"⟩], ctxSha := "abc", commits := [] }
      [.lit 'v', .lit '1', .anyChar, .lit '0', .anyChar, .lit '0']
      ⟨"v1.0.0", "abc", none⟩ (by decide) (by decide) rfl⟩

theorem runAfterShaGuard_created_inv {env : RunEnv} {mt : Option MatchedTag}
    {n : String} {rev : Nat} {msg : String} {cf : Option String} {ct : String} {pre : Bool}
    (h : runAfterShaGuard env mt = .created n rev msg cf ct pre) :
    rev = resolveRevision mt ∧
    n = tagNameStr env.tagFormat env.version (resolveRevision mt) ∧
    cf = (env.tags.head?).map Tag.name ∧
    ct = env.ctxSha ∧
    msg = getTagMessage ((env.tags.head?).map Tag.name) (some env.ctxSha) env.commits ∧
    pre = preFlag env.version := by
  simp only [runAfterShaGuard] at h
  split at h
  · simp at h
  · split at h
    · simp at h
    · injection h with h1 h2 h3 h4 h5 h6
      exact ⟨h2.symm, h1.symm, h4.symm, h5.symm, h3.symm, h6.symm⟩

theorem runCore_created_inv {env : RunEnv} {re : List RElem}
    {n : String} {rev : Nat} {msg : String} {cf : Option String} {ct : String} {pre : Bool}
    (h : runCore env re = .created n rev msg cf ct pre) :
    runAfterShaGuard env (searchMatchingTag env.tags re) = .created n rev msg cf ct pre := by
  unfold runCore at h
  split at h
  · rename_i m heq
    split at h
    · simp at h
    · rw [heq]; exact h
  · rename_i heq
    rw [heq]; exact h

theorem runFromVersion_created_inv {env : RunEnv} {r : RunResult}
    (h : runFromVersion env = some r)
    {n : String} {rev : Nat} {msg : String} {cf : Option String} {ct : String} {pre : Bool}
    (ho : r.outcome = .created n rev msg cf ct pre) :
    r.outputVersion = env.version ∧
    ∃ re, compilePattern (tagPatternStr env.tagFormat env.version) = some re ∧
      runCore env re = .created n rev msg cf ct pre := by
  unfold runFromVersion at h
  split at h
  · cases h
    simp at ho
  · cases hc : compilePattern (tagPatternStr env.tagFormat env.version) with
    | none => rw [hc] at h; simp at h
    | some re =>
      rw [hc] at h
      simp only [Option.map_some'] at h
      cases h
      exact ⟨rfl, re, rfl, ho⟩

/-- Claim C7: every run that reaches changelog generation compares from the name
of the first tag of the full fetched list (`null` when there are no tags at
all) to the current commit SHA (src/main.js lines 129-130). -/
theorem changelog_endpoints (env : RunEnv) (r : RunResult)
    (h : runFromVersion env = some r)
    (n : String) (rev : Nat) (msg : String) (cf : Option String) (ct : String) (pre : Bool)
    (ho : r.outcome = .created n rev msg cf ct pre) :
    cf = (env.tags.head?).map Tag.name ∧ ct = env.ctxSha := by
  obtain ⟨-, re, hc, hcore⟩ := runFromVersion_created_inv h ho
  have hinv := runAfterShaGuard_created_inv (runCore_created_inv hcore)
  exact ⟨hinv.2.2.1, hinv.2.2.2.1⟩

theorem changelog_endpoints_witness :
    runFromVersion envPriorTag =
      some ⟨"1.0.0", .created "v1.0.0" 1 "Initial tag" (some "v9.9.9") "abc" false⟩ ∧
    (some "v9.9.9" = (envPriorTag.tags.head?).map Tag.name ∧
      "abc" = envPriorTag.ctxSha) :=
  ⟨by decide,
    changelog_endpoints envPriorTag
      ⟨"1.0.0", .created "v1.0.0" 1 "Initial tag" (some "v9.9.9") "abc" false⟩
      (by decide) "v1.0.0" 1 "Initial tag" (some "v9.9.9") "abc" false rfl⟩

theorem preFlag_characterization (v : String) :
    (preFlag v = true ↔
      ∃ sv, semverParse v = some sv ∧ (sv.major = 0 ∨ sv.prerelease ≠ [])) ∧
    (semverParse v = none → preFlag v = false) := by
  unfold preFlag
  cases hp : semverParse v with
  | none => simp
  | some sv =>
    refine ⟨?_, fun hnone => by simp at hnone⟩
    constructor
    · intro hb
      simp only [Bool.or_eq_true, beq_iff_eq, Bool.not_eq_true'] at hb
      rcases hb with h | h
      · exact ⟨sv, rfl, Or.inl h⟩
      · refine ⟨sv, rfl, Or.inr ?_⟩
        intro hnil
        rw [hnil] at h
        simp at h
    · rintro ⟨sv', hsv, hor⟩
      obtain rfl : sv = sv' := Option.some.inj hsv
      rcases hor with h | h
      · simp [h]
      · cases hne : sv.prerelease with
        | nil => exact absurd hne h
        | cons a as => simp [hne]

/-- Claim C8: for every run that creates a release, the prerelease flag is true
exactly when the version parses as a semantic version with major component 0
or a prerelease component, and false when it does not parse
(src/main.js lines 155-162). -/
theorem release_prerelease_flag (env : RunEnv) (r : RunResult)
    (h : runFromVersion env = some r)
    (n : String) (rev : Nat) (msg : String) (cf : Option String) (ct : String) (pre : Bool)
    (ho : r.outcome = .created n rev msg cf ct pre) :
    (pre = true ↔
      ∃ sv, semverParse env.version = some sv ∧ (sv.major = 0 ∨ sv.prerelease ≠ [])) ∧
    (semverParse env.version = none → pre = false) := by
  obtain ⟨-, re, hc, hcore⟩ := runFromVersion_created_inv h ho
  have hinv := runAfterShaGuard_created_inv (runCore_created_inv hcore)
  rw [hinv.2.2.2.2.2]
  exact preFlag_characterization env.version

theorem release_prerelease_flag_witness :
    runFromVersion { tagFormat := "v{version}", version := "0.1.0",
                     tags := [], ctxSha := "abc", commits := [] } =
      some ⟨"0.1.0", .created "v0.1.0" 1 "Initial tag" none "abc" true⟩ ∧
    ((true = true) ↔
      ∃ sv, semverParse "0.1.0" = some sv ∧ (sv.major = 0 ∨ sv.prerelease ≠ [])) :=
  ⟨by decide,
    (release_prerelease_flag
      { tagFormat := "v{version}", version := "0.1.0", tags := [], ctxSha := "abc", commits := [] }
      ⟨"0.1.0", .created "v0.1.0" 1 "Initial tag" none "abc" true⟩
      (by decide) "v0.1.0" 1 "Initial tag" none "abc" true rfl).1⟩

/-- Claim C10: the name-equality guard (src/main.js line 123) compares the matched
tag's original name to the desired name by exact string equality although
matching normalised (trimmed, lower-cased): a tag matching only via that
normalisation, with a different SHA, does not abort, and the run proceeds to
create a tag whose name differs from the existing one only by that
normalisation. -/
theorem normalization_gap_creates_near_duplicate
    (env : RunEnv) (re : List RElem) (mt : MatchedTag)
    (h0 : isZeroSentinel env.version = false)
    (hc : compilePattern (tagPatternStr env.tagFormat env.version) = some re)
    (hm : searchMatchingTag env.tags re = some mt)
    (hsha : mt.sha ≠ env.ctxSha)
    (hctx : env.ctxSha ≠ "")
    (hdiff : mt.name ≠ tagNameStr env.tagFormat env.version (resolveRevision (some mt)))
    (hnorm : normalizeTagName mt.name =
      normalizeTagName (tagNameStr env.tagFormat env.version (resolveRevision (some mt)))) :
    ∃ r, runFromVersion env = some r ∧
      r.outcome.createdName =
        some (tagNameStr env.tagFormat env.version (resolveRevision (some mt))) ∧
      tagNameStr env.tagFormat env.version (resolveRevision (some mt)) ≠ mt.name ∧
      normalizeTagName (tagNameStr env.tagFormat env.version (resolveRevision (some mt))) =
        normalizeTagName mt.name := by
  have hce : env.ctxSha.isEmpty = false := by
    by_contra hne
    rw [Bool.not_eq_false] at hne
    exact hctx ((String.isEmpty_iff _).mp hne)
  have hcore : runCore env re = runAfterShaGuard env (some mt) := by
    unfold runCore
    rw [hm]
    simp [beq_eq_false_iff_ne.mpr hsha]
  have hname : (runAfterShaGuard env (some mt)).createdName =
      some (tagNameStr env.tagFormat env.version (resolveRevision (some mt))) := by
    simp only [runAfterShaGuard]
    simp [beq_eq_false_iff_ne.mpr hdiff, hce, RunOutcome.createdName]
  refine ⟨⟨env.version, runCore env re⟩, runFromVersion_eq_core env re h0 hc, ?_,
    Ne.symm hdiff, hnorm.symm⟩
  rw [hcore]
  exact hname

theorem normalization_gap_creates_near_duplicate_witness :
    searchMatchingTag [⟨"V1.0.0", "sha1"⟩]
        [.lit 'v', .lit '1', .anyChar, .lit '0', .anyChar, .lit '0'] =
      some ⟨"V1.0.0", "sha1", none⟩ ∧
    ("V1.0.0" : String) ≠ "v1.0.0" ∧
    normalizeTagName "V1.0.0" = normalizeTagName "v1.0.0" ∧
    ∃ r, runFromVersion { tagFormat := "v{version}", version := "1.0.0",
                          tags := [⟨"V1.0.0", "sha1"⟩], ctxSha := "sha2", commits := [] } =
        some r ∧
      r.outcome.createdName = some (tagNameStr "v{version}" "1.0.0"
        (resolveRevision (some ⟨"V1.0.0", "sha1", none⟩))) :=
  ⟨by decide, by decide, by decide, by
    obtain ⟨r, h1, h2, -, -⟩ :=
      normalization_gap_creates_near_duplicate
        { tagFormat := "v{version}", version := "1.0.0",
          tags := [⟨"V1.0.0", "sha1"⟩], ctxSha := "sha2", commits := [] }
        [.lit 'v', .lit '1', .anyChar, .lit '0', .anyChar, .lit '0']
        ⟨"V1.0.0", "sha1", none⟩
        (by decide) (by decide) (by decide) (by decide) (by decide) (by decide) (by decide)
    exact ⟨r, h1, h2⟩⟩

/-- Claim C3: the tag matcher returns the first tag in list order whose trimmed,
lower-cased name fully matches the anchored pattern (whole-string match, not
substring), and no match when none qualifies; in particular `" V1.0.0 "`
matches the pattern derived from template `v{version}` and version `1.0.0`,
while the strict superstring `"xv1.0.0y"` does not. -/
theorem tag_matcher_first_normalized_match :
    (∀ (tags : List Tag) (re : List RElem),
        searchMatchingTag tags re =
          (tags.find? (fun t => (execAnchored re (normalizeTagName t.name)).isSome)).map
            (fun t => ⟨t.name, t.sha, (execAnchored re (normalizeTagName t.name)).getD none⟩)) ∧
    (∀ re, compilePattern (tagPatternStr "v{version}" "1.0.0") = some re →
        searchMatchingTag [⟨" V1.0.0 ", "s1"⟩] re = some ⟨" V1.0.0 ", "s1", none⟩ ∧
        searchMatchingTag [⟨"xv1.0.0y", "s2"⟩] re = none) := by
  refine ⟨searchMatchingTag_eq_find, ?_⟩
  intro re hre
  have hconc : compilePattern (tagPatternStr "v{version}" "1.0.0") = some vPat100 := by decide
  rw [hconc] at hre
  obtain rfl : vPat100 = re := Option.some.inj hre
  exact ⟨by decide, by decide⟩

theorem tag_matcher_first_normalized_match_witness :
    compilePattern (tagPatternStr "v{version}" "1.0.0") = some vPat100 ∧
    searchMatchingTag [⟨" V1.0.0 ", "s1"⟩] vPat100 = some ⟨" V1.0.0 ", "s1", none⟩ :=
  ⟨by decide, (tag_matcher_first_normalized_match.2 vPat100 (by decide)).1⟩

theorem renderCommit_some (acc : String) (c : CommitEntry) :
    renderCommit acc (some c) = acc ++ ("\n" ++ specRenderLine c) := by
  cases hl : c.authorLogin with
  | none =>
    simp [renderCommit, specRenderLine, hl, String.append_assoc, String.append_empty]
    rfl
  | some l =>
    by_cases he : l.isEmpty
    · simp [renderCommit, specRenderLine, hl, he, String.append_assoc, String.append_empty]
      rfl
    · simp [renderCommit, specRenderLine, hl, he, String.append_assoc, String.append_empty]
      rfl

theorem foldl_renderCommit (cs : List CommitEntry) :
    ∀ acc : String, (cs.map some).foldl renderCommit acc = acc ++ bulletBlock cs := by
  induction cs with
  | nil => intro acc; simp [bulletBlock, String.append_empty]
  | cons c cs ih =>
    intro acc
    simp only [List.map_cons, List.foldl_cons]
    rw [ih, renderCommit_some, bulletBlock, String.append_assoc]

theorem bulletBlock_eq_joinLines (c : CommitEntry) (cs : List CommitEntry) :
    bulletBlock (c :: cs) = "\n" ++ joinLines ((c :: cs).map specRenderLine) := by
  induction cs generalizing c with
  | nil => simp [bulletBlock, joinLines, String.append_empty]
  | cons c2 cs ih =>
    have hstep : bulletBlock (c :: c2 :: cs) =
        "\n" ++ specRenderLine c ++ bulletBlock (c2 :: cs) := rfl
    rw [hstep, ih c2]
    simp only [List.map_cons, joinLines]
    simp [String.append_assoc]

theorem jsTrim_newline (s : String) : jsTrim ("\n" ++ s) = jsTrim s := by
  have hdata : ("\n" ++ s).data = '\n' :: s.data := by
    simp [String.data_append]
  simp [jsTrim, trimChars, hdata, List.dropWhile,
    show isJsWhitespace '\n' = true by decide]

/-- Claim C6: the changelog builder returns the literal `"Initial tag"` when either
endpoint is absent or the comparison yields zero commits, and otherwise one
bullet line `* <commit message>` per commit in comparison order, with
` (<author login>)` appended when an author login is resolvable, joined by
newlines and trimmed of leading/trailing whitespace
(src/main.js lines 49-70). -/
theorem changelog_initial_or_bullets (fromRef toRef : Option String)
    (commits : List CommitEntry) :
    getTagMessage fromRef toRef (commits.map some) =
      if jsTruthy fromRef && jsTruthy toRef && !commits.isEmpty then
        jsTrim (joinLines (commits.map specRenderLine))
      else "Initial tag" := by
  cases hf : jsTruthy fromRef with
  | false => simp [getTagMessage, hf]
  | true =>
    cases ht : jsTruthy toRef with
    | false => simp [getTagMessage, hf, ht]
    | true =>
      cases commits with
      | nil => simp [getTagMessage, hf, ht]
      | cons c cs =>
        have h1 : ((c :: cs).map some).foldl renderCommit "" = bulletBlock (c :: cs) := by
          rw [foldl_renderCommit]
          exact String.empty_append _
        have hfinal : getTagMessage fromRef toRef ((c :: cs).map some) =
            jsTrim (joinLines ((c :: cs).map specRenderLine)) :=
          calc getTagMessage fromRef toRef ((c :: cs).map some)
              = jsTrim (((c :: cs).map some).foldl renderCommit "") := by
                simp [getTagMessage, hf, ht]
            _ = jsTrim ("\n" ++ joinLines ((c :: cs).map specRenderLine)) := by
                rw [h1, bulletBlock_eq_joinLines]
            _ = jsTrim (joinLines ((c :: cs).map specRenderLine)) := jsTrim_newline _
        rw [hfinal]
        simp

theorem findPat_first (pat b : List Char) :
    ∀ a : List Char,
      (∀ k, k < a.length → pat.isPrefixOf ((a ++ pat ++ b).drop k) = false) →
      findPat (a ++ pat ++ b) pat = some a.length := by
  intro a
  induction a with
  | nil =>
    intro _
    simp only [List.nil_append]
    unfold findPat
    rw [if_pos (List.isPrefixOf_iff_prefix.mpr (List.prefix_append pat b))]
    rfl
  | cons c a ih =>
    intro h
    have h0 : pat.isPrefixOf ((c :: a) ++ pat ++ b) = false := by
      have hd := h 0 (by simp)
      rwa [List.drop_zero] at hd
    unfold findPat
    rw [if_neg (by rw [h0]; simp)]
    have ha := ih (fun k hk => by
      have hk1 := h (k + 1) (by simpa using Nat.succ_lt_succ hk)
      simpa [List.cons_append] using hk1)
    show (findPat (a ++ pat ++ b) pat).map (· + 1) = some ((c :: a).length)
    rw [ha]
    simp

theorem listReplaceFirst_at_first_occurrence (pat repl b a : List Char)
    (h : ∀ k, k < a.length → pat.isPrefixOf ((a ++ pat ++ b).drop k) = false) :
    listReplaceFirst (a ++ pat ++ b) pat repl = a ++ expandDollar a pat b repl ++ b := by
  unfold listReplaceFirst
  rw [findPat_first pat b a h]
  have htake : (a ++ pat ++ b).take a.length = a := by
    rw [List.append_assoc]
    exact List.take_left a (pat ++ b)
  have hdrop : (a ++ pat ++ b).drop (a.length + pat.length) = b := by
    have hlen : a.length + pat.length = (a ++ pat).length := (List.length_append a pat).symm
    rw [hlen]
    exact List.drop_left (a ++ pat) b
  simp only [htake, hdrop]

/-- Claim C9: the substitution used for both the derived matching pattern and the
composed desired tag name replaces only the FIRST occurrence of a
placeholder; every later occurrence survives literally, as the concrete
doubled-placeholder templates show for `tagNameStr` and `tagPatternStr`. -/
theorem placeholder_substituted_once :
    (∀ (pat repl b a : List Char),
        (∀ k, k < a.length → pat.isPrefixOf ((a ++ pat ++ b).drop k) = false) →
        listReplaceFirst (a ++ pat ++ b) pat repl =
          a ++ expandDollar a pat b repl ++ b) ∧
    tagNameStr "{version}-{version}-{revision}-{revision}" "1.2" 3 =
      "1.2-{version}-3-{revision}" ∧
    tagPatternStr "v{version}.{version}x{revision}y{revision}" "1.0" =
      "^v1.0.{version}x(?<revision>[0-9]+)y{revision}$" :=
  ⟨fun pat repl b a h => listReplaceFirst_at_first_occurrence pat repl b a h,
    by decide, by decide⟩

theorem placeholder_substituted_once_witness :
    (∀ k, k < ("ab".data : List Char).length →
        ("{version}".data).isPrefixOf (("ab".data ++ "{version}".data ++ "cd".data).drop k) =
          false) ∧
    listReplaceFirst ("ab".data ++ "{version}".data ++ "cd".data) "{version}".data "9".data =
      "ab".data ++ expandDollar "ab".data "{version}".data "cd".data "9".data ++ "cd".data :=
  ⟨by decide,
    placeholder_substituted_once.1 "{version}".data "9".data "cd".data "ab".data (by decide)⟩

end AutoTagBot
